import Mathlib

/-
Verification of the flash orchestration client in client/bootloader_flash.py.

The embedding below translates the functions of bootloader_flash.py into
executable Lean definitions.  External collaborators (the commands module,
the utils channel, msgpack) are modelled at their boundary: commands are
kept as symbolic values, the channel is a scripted oracle of per-board
results, and the reply reader is the list of datagrams it will yield, with
Option.none standing for a timeout marker.  Python int arithmetic is
modelled with Int where values can go negative, Nat elsewhere; fallible
code returns Except or Option.
-/

namespace BootloaderFlash

/-- One step of the zlib crc32 bit loop: shift right one bit and, when the
low bit was set, xor in the reversed polynomial 0xEDB88320. -/
def crc32_step (c : Nat) : Nat :=
  if c % 2 = 1 then (c / 2) ^^^ 0xEDB88320 else c / 2

/-- Iterate the crc32 bit step n times. -/
def crc32_bits : Nat → Nat → Nat
  | c, 0 => c
  | c, n + 1 => crc32_bits (crc32_step c) n

/-- Fold one byte into a running crc32 register. -/
def crc32_byte (c b : Nat) : Nat := crc32_bits (c ^^^ (b % 256)) 8

/-- zlib.crc32 of a byte sequence (bytes as Nat below 256), used by
flash_binary for the application_crc field and by check_binary for the
locally computed expected checksum. -/
def crc32 (data : List Nat) : Nat :=
  (data.foldl crc32_byte 0xFFFFFFFF) ^^^ 0xFFFFFFFF

/-- The target description dict read from the YAML file: base_address,
device_class, chunk_size, and flash_pages, each page being a pair of
address and size. -/
structure Target where
  base_address : Nat
  device_class : String
  chunk_size : Nat
  flash_pages : List (Nat × Nat)
deriving DecidableEq

/-- The Python exceptions pages_to_be_erased can raise: IndexError from the
list subscripts of the reserved-page loop, and the FlashSizeError it raises
itself. -/
inductive PyError where
  | indexError
  | flashSizeError
deriving DecidableEq

/-- The reserved-page-skipping loop of pages_to_be_erased: addr is read from
pages[0][0] (IndexError on an empty list), and leading pages with address
below base are popped, re-reading pages[0][0] after each pop (IndexError
when the list runs out).  On success the first remaining page and the rest
are returned. -/
def dropReserved (base : Nat) : List (Nat × Nat) → Except PyError ((Nat × Nat) × List (Nat × Nat))
  | [] => .error .indexError
  | p :: rest => if p.1 < base then dropReserved base rest else .ok (p, rest)

/-- The plan-building loop of pages_to_be_erased: walk the remaining pages
in order, breaking as soon as the remaining length is non-positive,
appending each visited page and decrementing the remaining length by the
page size.  The length is a Python int and can go negative. -/
def buildErase : List (Nat × Nat) → Int → List (Nat × Nat)
  | [], _ => []
  | (addr, size) :: rest, length =>
    if length ≤ 0 then []
    else (addr, size) :: buildErase rest (length - size)

/-- pages_to_be_erased from bootloader_flash.py.  The Python code pops the
reserved leading pages from the caller's flash_pages list in place, so the
result carries both the erase plan and the target as the call leaves it.
The up-front size check is pages[-1][0] - pages[0][0] + pages[0][1] <
length, computed on the remaining page table. -/
def pages_to_be_erased (target : Target) (length : Int) :
    Except PyError (List (Nat × Nat) × Target) :=
  match dropReserved target.base_address target.flash_pages with
  | .error e => .error e
  | .ok (first, rest) =>
    if ((((first :: rest).getLast (List.cons_ne_nil first rest)).1 : Int)
        - (first.1 : Int) + (first.2 : Int) < length) then
      .error .flashSizeError
    else
      .ok (buildErase (first :: rest) length, { target with flash_pages := first :: rest })

/-- slice_into_chunks from bootloader_flash.py: while the data is longer
than chunkSize, yield the leading chunkSize bytes and continue on the rest;
then yield the remainder (possibly empty when the data was empty).  For
chunkSize = 0 and nonempty data the Python generator never terminates; the
0 < chunkSize part of the guard makes the model total, and that case is
outside every claim (all assume chunk_size > 0). -/
def slice_into_chunks (data : List Nat) (chunkSize : Nat) : List (List Nat) :=
  if _h : 0 < chunkSize ∧ chunkSize < data.length then
    data.take chunkSize :: slice_into_chunks (data.drop chunkSize) chunkSize
  else
    [data]
termination_by data.length
decreasing_by
  simp only [List.length_drop]
  omega

/-- The commands flash_binary asks the external encoders to build and hands
to the channel.  Every command of a run is addressed to the same
destination list, which stays at the call sites. -/
inductive Command where
  | eraseCmd (page : Nat) (deviceClass : String)
  | writeCmd (chunk : List Nat) (address : Nat) (deviceClass : String)
  | configCmd (applicationSize : Nat) (applicationCrc : Nat)
deriving DecidableEq

/-- Whether a command is a flash write command. -/
def Command.isWrite : Command → Bool
  | .writeCmd _ _ _ => true
  | _ => false

/-- A per-board result mapping as returned by the retrying channel, in the
mapping's own iteration order, with the msgpack boolean already decoded. -/
abbrev PBR := List (Nat × Bool)

/-- failed_boards: the ids whose reply decodes to a false success flag, in
the order of the result mapping. -/
def failedOf (r : PBR) : List Nat := (r.filter (fun p => !p.2)).map Prod.fst

/-- The erase loop of flash_binary: one erase command per planned page, in
plan order, aborting with the failing ids as soon as any board reports
failure.  The Nat argument counts channel calls and indexes the scripted
responses. -/
def erasePhase (dc : String) (resp : Nat → PBR) :
    List (Nat × Nat) → Nat → List Command → List Command × Nat × Option (List Nat)
  | [], n, trace => (trace, n, none)
  | (page, _) :: rest, n, trace =>
    let trace2 := trace ++ [Command.eraseCmd page dc]
    let f := failedOf (resp n)
    if f = [] then erasePhase dc resp rest (n + 1) trace2
    else (trace2, n + 1, some f)

/-- The write loop of flash_binary: one write command per chunk, the i-th
chunk going to address base + i * chunkSize, aborting with the failing ids
as soon as any board reports failure. -/
def writePhase (dc : String) (base cs : Nat) (resp : Nat → PBR) :
    List (List Nat) → Nat → Nat → List Command → List Command × Nat × Option (List Nat)
  | [], _, n, trace => (trace, n, none)
  | c :: rest, i, n, trace =>
    let trace2 := trace ++ [Command.writeCmd c (base + i * cs) dc]
    let f := failedOf (resp n)
    if f = [] then writePhase dc base cs resp rest (i + 1) (n + 1) trace2
    else (trace2, n + 1, some f)

/-- How a flash_binary run ends: sys.exit(2) carrying the ids named in the
abort message, a normal return, or a propagated Python exception from
pages_to_be_erased. -/
inductive RunResult where
  | sysExit (code : Nat) (failedBoards : List Nat)
  | finished
  | flashSizeError
  | indexError
deriving DecidableEq

/-- flash_binary from bootloader_flash.py: plan the erasure, erase page by
page, write the image chunk by chunk, then send the config update carrying
the application size and crc.  Returns the trace of issued commands and how
the run ended. -/
def flash_binary (binary : List Nat) (target : Target) (_destinations : List Nat)
    (resp : Nat → PBR) : List Command × RunResult :=
  match pages_to_be_erased target (binary.length : Int) with
  | .error .flashSizeError => ([], .flashSizeError)
  | .error .indexError => ([], .indexError)
  | .ok (pages, _) =>
    match erasePhase target.device_class resp pages 0 [] with
    | (trace, _, some f) => (trace, .sysExit 2 f)
    | (trace, n, none) =>
      match writePhase target.device_class target.base_address target.chunk_size resp
          (slice_into_chunks binary target.chunk_size) 0 n trace with
      | (trace2, _, some f) => (trace2, .sysExit 2 f)
      | (trace2, _, none) =>
        (trace2 ++ [Command.configCmd binary.length (crc32 binary)], .finished)

/-- The reply-collecting loop of check_binary: while fewer than needed
replies have been counted, draw the next datagram.  An exhausted reply list
makes the Python next() raise, modelled as Option.none overall; a timeout
marker is skipped without counting; every other reply is counted and its
source appended when its decoded crc equals the expected one. -/
def checkLoop (expected needed : Nat) :
    List (Option (Nat × Nat)) → Nat → List Nat → Option (List Nat)
  | [], checked, acc => if needed ≤ checked then some acc else none
  | none :: rest, checked, acc =>
    if needed ≤ checked then some acc
    else checkLoop expected needed rest checked acc
  | some (crc, src) :: rest, checked, acc =>
    if needed ≤ checked then some acc
    else checkLoop expected needed rest (checked + 1)
      (if crc = expected then acc ++ [src] else acc)

/-- check_binary from bootloader_flash.py.  The reply reader is modelled as
the list of datagrams it will yield, each datagram being the decoded crc
answer and its source id (the metadata field is unused by the code), with
Option.none standing for a timeout marker. -/
def check_binary (binary : List Nat) (_base_address : Nat) (destinations : List Nat)
    (replies : List (Option (Nat × Nat))) : Option (List Nat) :=
  checkLoop (crc32 binary) destinations.length replies 0 []

/-- The first n non-timeout datagrams of a reply list, none when the list
is exhausted before n of them appear.  Used to state what check_binary
actually consumes. -/
def takeValid : Nat → List (Option (Nat × Nat)) → Option (List (Nat × Nat))
  | 0, _ => some []
  | _ + 1, [] => none
  | n + 1, none :: rest => takeValid (n + 1) rest
  | n + 1, some p :: rest => (takeValid n rest).map (p :: ·)

/-- The reply loop of check_online_boards: record each reply source, and
stop at the first timeout marker (or when the scripted stream ends). -/
def onlineLoop : Finset Nat → List (Option (Nat × Nat)) → Finset Nat
  | s, [] => s
  | s, none :: _ => s
  | s, some p :: rest => onlineLoop (insert p.2 s) rest

/-- check_online_boards from bootloader_flash.py: ping the candidate
boards, then collect reply sources until the first timeout marker.  The
candidate list only addresses the ping command and is not consulted when
recording sources. -/
def check_online_boards (_boards : List Nat) (replies : List (Option (Nat × Nat))) :
    Finset Nat :=
  onlineLoop ∅ replies

/-- Spec-side description of the prober result: the set of source ids of
the non-timeout replies that precede the first timeout indicator. -/
def sourcesBeforeTimeout (replies : List (Option (Nat × Nat))) : Finset Nat :=
  (((replies.takeWhile fun r => r.isSome).filterMap id).map Prod.snd).toFinset

/-- How a run of main ends: a process exit status, or an uncaught Python
exception (FlashSizeError, IndexError, or a StopIteration from an exhausted
scripted reader). -/
inductive MainResult where
  | exitCode (code : Nat)
  | pythonError
deriving DecidableEq

/-- verification_failed from bootloader_flash.py: print the failing nodes
and exit(1). -/
def verification_failed (_failed : Finset Nat) : MainResult := .exitCode 1

/-- main from bootloader_flash.py with the external collaborators scripted:
ping replies for the liveness probe, per-call channel results for
flash_binary, and crc replies for check_binary.  A normal return is exit
status 0; the run flag only triggers the jump-to-main command and does not
change the exit status. -/
def main (ids binary : List Nat) (target : Target)
    (ping : List (Option (Nat × Nat))) (resp : Nat → PBR)
    (crcReplies : List (Option (Nat × Nat))) (_run : Bool) : MainResult :=
  let online := check_online_boards ids ping
  if online ≠ ids.toFinset then .exitCode 2
  else
    match flash_binary binary target ids resp with
    | (_, .sysExit code _) => .exitCode code
    | (_, .flashSizeError) => .pythonError
    | (_, .indexError) => .pythonError
    | (_, .finished) =>
      match check_binary binary target.base_address ids crcReplies with
      | none => .pythonError
      | some valid =>
        if valid.toFinset = ids.toFinset then .exitCode 0
        else verification_failed (ids.toFinset \ valid.toFinset)

/-- Total size in bytes of a list of pages. -/
def sumSizes (pages : List (Nat × Nat)) : Nat := (pages.map Prod.snd).sum

/-- The write commands the write loop issues for the given chunks, starting
at chunk index i. -/
def writeCmdsFrom (dc : String) (base cs : Nat) : List (List Nat) → Nat → List Command
  | [], _ => []
  | c :: rest, i => Command.writeCmd c (base + i * cs) dc :: writeCmdsFrom dc base cs rest (i + 1)

/-- The ten-byte all-zero image used by the repository's own tests. -/
def binaryEx : List Nat := List.replicate 10 0

/-- The target of the repository's flash tests: base 0x1000, three pages of
0x1000 bytes. -/
def targetMain : Target :=
  ⟨0x1000, "dummy", 2048, [(0, 0x1000), (0x1000, 0x1000), (0x2000, 0x1000)]⟩

/-- The target of the repository's page-planning tests: base 0x1000, four
pages of 0x1000 bytes. -/
def targetPlan : Target :=
  ⟨0x1000, "dummy", 2048, [(0, 0x1000), (0x1000, 0x1000), (0x2000, 0x1000), (0x3000, 0x1000)]⟩

/-- A geometry whose first page is larger than its last. -/
def targetC2a : Target := ⟨0, "dummy", 16, [(0, 0x100), (0x100, 0x10)]⟩

/-- A geometry whose first page is smaller than its last. -/
def targetC2b : Target := ⟨0, "dummy", 16, [(0, 0x10), (0x10, 0x100)]⟩

/-- A geometry with one reserved page below the base address. -/
def targetC6 : Target := ⟨0x1000, "dummy", 2048, [(0, 0x1000), (0x1000, 0x1000)]⟩

/-- The erase plan of the spec scenario with image length 0x1001. -/
def planEx : List (Nat × Nat) := [(0x1000, 0x1000), (0x2000, 0x1000)]

/-- The page table of targetPlan after the reserved page is dropped. -/
def remainEx : List (Nat × Nat) := [(0x1000, 0x1000), (0x2000, 0x1000), (0x3000, 0x1000)]

/-- The reply loop of check_binary consumes exactly the first
destinations-many non-timeout datagrams and keeps, in arrival order, the
sources of those whose crc equals the expected one. -/
theorem checkLoop_eq (e : Nat) :
    ∀ (replies : List (Option (Nat × Nat))) (needed checked : Nat) (acc : List Nat),
      checkLoop e needed replies checked acc =
        (takeValid (needed - checked) replies).map
          (fun es => acc ++ (es.filter fun p => decide (p.1 = e)).map Prod.snd) := by
  intro replies
  induction replies with
  | nil =>
    intro needed checked acc
    by_cases h : needed ≤ checked
    · have h0 : needed - checked = 0 := by omega
      simp [checkLoop, takeValid, h, h0]
    · obtain ⟨m, hm⟩ : ∃ m, needed - checked = m + 1 := ⟨needed - checked - 1, by omega⟩
      simp [checkLoop, takeValid, h, hm]
  | cons hd rest ih =>
    intro needed checked acc
    by_cases h : needed ≤ checked
    · have h0 : needed - checked = 0 := by omega
      cases hd with
      | none => simp [checkLoop, takeValid, h, h0]
      | some p => cases p with | mk crc src => simp [checkLoop, takeValid, h, h0]
    · obtain ⟨m, hm⟩ : ∃ m, needed - checked = m + 1 := ⟨needed - checked - 1, by omega⟩
      cases hd with
      | none =>
        simp only [checkLoop, if_neg h, hm, takeValid]
        rw [ih needed checked acc, hm]
      | some p =>
        cases p with
        | mk crc src =>
          simp only [checkLoop, if_neg h, hm, takeValid]
          rw [ih needed (checked + 1) (if crc = e then acc ++ [src] else acc)]
          have hm2 : needed - (checked + 1) = m := by omega
          rw [hm2]
          cases tv : takeValid m rest with
          | none => simp
          | some es =>
            simp only [Option.map_some']
            by_cases hc : crc = e
            · simp [hc, List.filter_cons]
            · simp [hc, List.filter_cons]

/-- check_binary in closed form: take the first destinations-many
non-timeout replies (or fail when the reader runs dry) and return the
sources of those whose crc matches the one computed over the image. -/
theorem check_binary_eq (binary : List Nat) (base : Nat) (dests : List Nat)
    (replies : List (Option (Nat × Nat))) :
    check_binary binary base dests replies =
      (takeValid dests.length replies).map
        (fun es => (es.filter fun p => decide (p.1 = crc32 binary)).map Prod.snd) := by
  unfold check_binary
  rw [checkLoop_eq]
  simp

/-- When every page sits below the base address (or there is no page at
all), the skipping loop runs the list dry and hits an out-of-range
subscript. -/
theorem dropReserved_all_below (base : Nat) :
    ∀ l : List (Nat × Nat), (∀ p ∈ l, p.1 < base) →
      dropReserved base l = .error .indexError := by
  intro l
  induction l with
  | nil => intro _; rfl
  | cons p rest ih =>
    intro h
    have hp : p.1 < base := h p (by simp)
    simp only [dropReserved, if_pos hp]
    exact ih fun q hq => h q (by simp [hq])

/-- A successful skip returns the longest reserved-free tail: the dropWhile
of the below-base test, which is also a tail of the original list. -/
theorem dropReserved_ok (base : Nat) :
    ∀ (l : List (Nat × Nat)) (f : Nat × Nat) (r : List (Nat × Nat)),
      dropReserved base l = .ok (f, r) →
      f :: r = l.dropWhile (fun p => decide (p.1 < base)) ∧ ∃ pre, l = pre ++ f :: r := by
  intro l
  induction l with
  | nil => intro f r h; simp [dropReserved] at h
  | cons p rest ih =>
    intro f r h
    by_cases hp : p.1 < base
    · simp only [dropReserved, if_pos hp] at h
      obtain ⟨hdw, pre, hpre⟩ := ih f r h
      refine ⟨?_, p :: pre, by simp [hpre]⟩
      rw [List.dropWhile_cons]
      simp [hp, hdw]
    · simp only [dropReserved, if_neg hp, Except.ok.injEq, Prod.mk.injEq] at h
      obtain ⟨hf, hr⟩ := h
      subst hf; subst hr
      refine ⟨?_, [], rfl⟩
      rw [List.dropWhile_cons]
      simp [hp]

/-- The plan-building loop returns an initial segment of the pages it
walks. -/
theorem buildErase_eq_take :
    ∀ (ps : List (Nat × Nat)) (L : Int), ∃ k, buildErase ps L = ps.take k := by
  intro ps
  induction ps with
  | nil => intro L; exact ⟨0, rfl⟩
  | cons p rest ih =>
    intro L
    cases p with
    | mk a s =>
      by_cases h : L ≤ 0
      · exact ⟨0, by simp [buildErase, h]⟩
      · obtain ⟨k, hk⟩ := ih (L - s)
        exact ⟨k + 1, by simp [buildErase, h, hk]⟩

/-- Total size of a cons of pages. -/
theorem sumSizes_cons (p : Nat × Nat) (l : List (Nat × Nat)) :
    sumSizes (p :: l) = p.2 + sumSizes l := by
  simp [sumSizes]

/-- When the walked pages hold enough bytes, the selected pages hold enough
bytes. -/
theorem buildErase_sum_ge :
    ∀ (ps : List (Nat × Nat)) (L : Int), L ≤ (sumSizes ps : Int) →
      L ≤ (sumSizes (buildErase ps L) : Int) := by
  intro ps
  induction ps with
  | nil => intro L h; simpa [buildErase] using h
  | cons p rest ih =>
    intro L h
    cases p with
    | mk a s =>
      rw [sumSizes_cons] at h
      push_cast at h
      by_cases h0 : L ≤ 0
      · simp only [buildErase, if_pos h0]
        simp [sumSizes]
        omega
      · simp only [buildErase, if_neg h0]
        have h3 := ih (L - s) (by omega)
        rw [sumSizes_cons]
        push_cast
        omega

/-- Every selected page except the last is needed: without the last one the
selected sizes stay strictly below the requested length. -/
theorem buildErase_dropLast_lt :
    ∀ (ps : List (Nat × Nat)) (L : Int), buildErase ps L ≠ [] →
      (sumSizes (buildErase ps L).dropLast : Int) < L := by
  intro ps
  induction ps with
  | nil => intro L h; simp [buildErase] at h
  | cons p rest ih =>
    intro L h
    cases p with
    | mk a s =>
      by_cases h0 : L ≤ 0
      · simp [buildErase, h0] at h
      · simp only [buildErase, if_neg h0] at h ⊢
        cases hb : buildErase rest (L - s) with
        | nil =>
          simp [hb, sumSizes]
          omega
        | cons q qs =>
          have hne : buildErase rest (L - s) ≠ [] := by simp [hb]
          have h3 := ih (L - s) hne
          rw [hb] at h3
          rw [List.dropLast_cons₂, sumSizes_cons]
          push_cast at h3 ⊢
          omega

/-- Splitting the total size of a nonempty page list at its last page. -/
theorem sumSizes_eq_dropLast_add (l : List (Nat × Nat)) (h : l ≠ []) :
    sumSizes l = sumSizes l.dropLast + (l.getLast h).2 := by
  conv_lhs => rw [← List.dropLast_append_getLast h]
  simp [sumSizes]

/-- Inversion of a successful pages_to_be_erased call: the reserved pages
were skipped, the size check passed, the plan is the building loop's
output, and only flash_pages changed in the returned target. -/
theorem pages_to_be_erased_ok {target : Target} {L : Int} {plan : List (Nat × Nat)}
    {t' : Target} (h : pages_to_be_erased target L = .ok (plan, t')) :
    ∃ first rest,
      dropReserved target.base_address target.flash_pages = .ok (first, rest) ∧
      plan = buildErase (first :: rest) L ∧
      t' = { target with flash_pages := first :: rest } := by
  unfold pages_to_be_erased at h
  split at h
  · simp at h
  · rename_i first rest heq
    split at h
    · simp at h
    · simp only [Except.ok.injEq, Prod.mk.injEq] at h
      exact ⟨first, rest, heq, h.1.symm, h.2.symm⟩

/-- When no board ever reports failure, the erase loop issues one erase
command per planned page and completes. -/
theorem erasePhase_success (dc : String) (resp : Nat → PBR)
    (hs : ∀ j, failedOf (resp j) = []) :
    ∀ (pages : List (Nat × Nat)) (n : Nat) (t : List Command),
      erasePhase dc resp pages n t =
        (t ++ pages.map (fun p => Command.eraseCmd p.1 dc), n + pages.length, none) := by
  intro pages
  induction pages with
  | nil => intro n t; simp [erasePhase]
  | cons p rest ih =>
    intro n t
    cases p with
    | mk a s =>
      simp only [erasePhase, hs n, if_pos]
      rw [ih (n + 1)]
      simp only [List.map_cons, List.length_cons, Prod.mk.injEq, List.append_assoc,
        List.singleton_append, and_true, true_and]
      omega

/-- When the boards confirm the first k erase commands and reject the next
one, the erase loop stops right there: the trace holds the first k + 1
erase commands and the loop reports the ids failing on command k. -/
theorem erasePhase_fail (dc : String) (resp : Nat → PBR) :
    ∀ (k : Nat) (pages : List (Nat × Nat)) (n : Nat) (t : List Command),
      k < pages.length →
      (∀ j, j < k → failedOf (resp (n + j)) = []) →
      failedOf (resp (n + k)) ≠ [] →
      erasePhase dc resp pages n t =
        (t ++ (pages.take (k + 1)).map (fun p => Command.eraseCmd p.1 dc),
          n + k + 1, some (failedOf (resp (n + k)))) := by
  intro k
  induction k with
  | zero =>
    intro pages n t hk hpre hfail
    cases pages with
    | nil => simp at hk
    | cons p rest =>
      cases p with
      | mk a s =>
        rw [Nat.add_zero] at hfail
        simp [erasePhase, hfail]
  | succ j ih =>
    intro pages n t hk hpre hfail
    cases pages with
    | nil => simp at hk
    | cons p rest =>
      cases p with
      | mk a s =>
        have h0 : failedOf (resp n) = [] := by simpa using hpre 0 (by omega)
        simp only [erasePhase, h0, if_pos]
        have hidx : n + (j + 1) = n + 1 + j := by omega
        rw [hidx] at hfail
        rw [ih rest (n + 1) (t ++ [Command.eraseCmd a dc]) (by simpa using hk)
          (fun i hi => by
            have := hpre (i + 1) (by omega)
            have hidx2 : n + (i + 1) = n + 1 + i := by omega
            rwa [hidx2] at this) hfail]
        simp only [List.take_succ_cons, List.map_cons, Prod.mk.injEq, List.append_assoc,
          List.singleton_append, true_and]
        refine ⟨by omega, ?_⟩
        rw [hidx]

/-- As erasePhase_success, but only assuming success on the responses the
loop actually consumes: the loop never looks past its own pages. -/
theorem erasePhase_success_upto (dc : String) (resp : Nat → PBR) :
    ∀ (pages : List (Nat × Nat)) (n : Nat) (t : List Command),
      (∀ j, j < pages.length → failedOf (resp (n + j)) = []) →
      erasePhase dc resp pages n t =
        (t ++ pages.map (fun p => Command.eraseCmd p.1 dc), n + pages.length, none) := by
  intro pages
  induction pages with
  | nil => intro n t _; simp [erasePhase]
  | cons p rest ih =>
    intro n t hs
    cases p with
    | mk a s =>
      have h0 : failedOf (resp n) = [] := by simpa using hs 0 (by simp)
      simp only [erasePhase, h0, if_pos]
      rw [ih (n + 1) (t ++ [Command.eraseCmd a dc])
        (fun j hj => by
          have := hs (j + 1) (by simpa using Nat.succ_lt_succ hj)
          have hidx : n + (j + 1) = n + 1 + j := by omega
          rwa [hidx] at this)]
      simp only [List.map_cons, List.length_cons, Prod.mk.injEq, List.append_assoc,
        List.singleton_append, and_true, true_and]
      omega

/-- When no board ever reports failure, the write loop issues one write
command per chunk, the i-th at address base + i * chunkSize. -/
theorem writePhase_success (dc : String) (base cs : Nat) (resp : Nat → PBR)
    (hs : ∀ j, failedOf (resp j) = []) :
    ∀ (chunks : List (List Nat)) (i n : Nat) (t : List Command),
      writePhase dc base cs resp chunks i n t =
        (t ++ writeCmdsFrom dc base cs chunks i, n + chunks.length, none) := by
  intro chunks
  induction chunks with
  | nil => intro i n t; simp [writePhase, writeCmdsFrom]
  | cons c rest ih =>
    intro i n t
    simp only [writePhase, hs n, if_pos]
    rw [ih (i + 1) (n + 1)]
    simp only [writeCmdsFrom, List.length_cons, Prod.mk.injEq, List.append_assoc,
      List.singleton_append, and_true, true_and]
    omega

/-- When the boards confirm the first k write commands and reject the next
one, the write loop stops right there: the trace gains the write commands
of the first k + 1 chunks and the loop reports the ids failing on write
command k. -/
theorem writePhase_fail (dc : String) (base cs : Nat) (resp : Nat → PBR) :
    ∀ (k : Nat) (chunks : List (List Nat)) (i n : Nat) (t : List Command),
      k < chunks.length →
      (∀ j, j < k → failedOf (resp (n + j)) = []) →
      failedOf (resp (n + k)) ≠ [] →
      writePhase dc base cs resp chunks i n t =
        (t ++ writeCmdsFrom dc base cs (chunks.take (k + 1)) i,
          n + k + 1, some (failedOf (resp (n + k)))) := by
  intro k
  induction k with
  | zero =>
    intro chunks i n t hk hpre hfail
    cases chunks with
    | nil => simp at hk
    | cons c rest =>
      rw [Nat.add_zero] at hfail
      simp [writePhase, hfail, writeCmdsFrom]
  | succ j ih =>
    intro chunks i n t hk hpre hfail
    cases chunks with
    | nil => simp at hk
    | cons c rest =>
      have h0 : failedOf (resp n) = [] := by simpa using hpre 0 (by omega)
      simp only [writePhase, h0, if_pos]
      have hidx : n + (j + 1) = n + 1 + j := by omega
      rw [hidx] at hfail
      rw [ih rest (i + 1) (n + 1) (t ++ [Command.writeCmd c (base + i * cs) dc])
        (by simpa using hk)
        (fun m hm => by
          have := hpre (m + 1) (by omega)
          have hidx2 : n + (m + 1) = n + 1 + m := by omega
          rwa [hidx2] at this) hfail]
      simp only [List.take_succ_cons, writeCmdsFrom, Prod.mk.injEq, List.append_assoc,
        List.singleton_append, true_and]
      refine ⟨by omega, ?_⟩
      rw [hidx]

/-- The command list of the write loop contains, for every chunk index, a
write command for that chunk at base + index * chunkSize. -/
theorem writeCmdsFrom_mem (dc : String) (base cs : Nat) :
    ∀ (chunks : List (List Nat)) (i0 i : Nat) (chunk : List Nat),
      chunks[i]? = some chunk →
      Command.writeCmd chunk (base + (i0 + i) * cs) dc ∈
        writeCmdsFrom dc base cs chunks i0 := by
  intro chunks
  induction chunks with
  | nil => intro i0 i chunk h; simp at h
  | cons c rest ih =>
    intro i0 i chunk h
    cases i with
    | zero =>
      simp only [List.getElem?_cons_zero, Option.some.injEq] at h
      subst h
      simp [writeCmdsFrom]
    | succ j =>
      have h2 : rest[j]? = some chunk := by simpa using h
      have h3 := ih (i0 + 1) j chunk h2
      have hidx : i0 + 1 + j = i0 + (j + 1) := by omega
      rw [hidx] at h3
      exact List.mem_cons_of_mem _ h3

/-- A fully successful flash_binary run: every planned page is erased, every
chunk is written in order, and the config update with image size and crc
closes the run. -/
theorem flash_binary_success {binary : List Nat} {target : Target}
    {resp : Nat → PBR} {plan : List (Nat × Nat)} {t' : Target} (dests : List Nat)
    (hs : ∀ j, failedOf (resp j) = [])
    (hp : pages_to_be_erased target (binary.length : Int) = .ok (plan, t')) :
    flash_binary binary target dests resp =
      (plan.map (fun p => Command.eraseCmd p.1 target.device_class) ++
        writeCmdsFrom target.device_class target.base_address target.chunk_size
          (slice_into_chunks binary target.chunk_size) 0 ++
        [Command.configCmd binary.length (crc32 binary)], .finished) := by
  simp only [flash_binary, hp, erasePhase_success target.device_class resp hs,
    writePhase_success target.device_class target.base_address target.chunk_size resp hs]
  simp

/-- A flash_binary run whose boards confirm the first k erase commands and
reject the next one stops in the erase phase with exit status 2 and the
failing ids; only the first k + 1 erase commands were ever issued. -/
theorem flash_binary_erase_fail {binary : List Nat} {target : Target}
    {resp : Nat → PBR} {plan : List (Nat × Nat)} {t' : Target} {k : Nat} (dests : List Nat)
    (hp : pages_to_be_erased target (binary.length : Int) = .ok (plan, t'))
    (hk : k < plan.length)
    (hpre : ∀ j, j < k → failedOf (resp j) = [])
    (hfail : failedOf (resp k) ≠ []) :
    flash_binary binary target dests resp =
      ((plan.take (k + 1)).map (fun p => Command.eraseCmd p.1 target.device_class),
        .sysExit 2 (failedOf (resp k))) := by
  simp only [flash_binary, hp,
    erasePhase_fail target.device_class resp k plan 0 [] hk
      (fun j hj => by simpa using hpre j hj) (by simpa using hfail)]
  simp

/-- A flash_binary run whose boards confirm every erase command and the
first k write commands but reject the next write stops in the write phase
with exit status 2 and the failing ids; the trace holds all erase commands
followed by the write commands of the first k + 1 chunks. -/
theorem flash_binary_write_fail {binary : List Nat} {target : Target}
    {resp : Nat → PBR} {plan : List (Nat × Nat)} {t' : Target} {k : Nat} (dests : List Nat)
    (hp : pages_to_be_erased target (binary.length : Int) = .ok (plan, t'))
    (hse : ∀ j, j < plan.length → failedOf (resp j) = [])
    (hk : k < (slice_into_chunks binary target.chunk_size).length)
    (hpre : ∀ j, j < k → failedOf (resp (plan.length + j)) = [])
    (hfail : failedOf (resp (plan.length + k)) ≠ []) :
    flash_binary binary target dests resp =
      (plan.map (fun p => Command.eraseCmd p.1 target.device_class) ++
        writeCmdsFrom target.device_class target.base_address target.chunk_size
          ((slice_into_chunks binary target.chunk_size).take (k + 1)) 0,
        .sysExit 2 (failedOf (resp (plan.length + k)))) := by
  have he := erasePhase_success_upto target.device_class resp plan 0 []
    (fun j hj => by simpa using hse j hj)
  simp only [Nat.zero_add, List.nil_append] at he
  have hw := writePhase_fail target.device_class target.base_address target.chunk_size resp
    k (slice_into_chunks binary target.chunk_size) 0 plan.length
    (plan.map (fun p => Command.eraseCmd p.1 target.device_class)) hk hpre hfail
  simp only [flash_binary, hp, he, hw]

/-- Concatenating the chunks in emission order rebuilds the image. -/
theorem slice_join (data : List Nat) (cs : Nat) (hcs : 0 < cs) :
    (slice_into_chunks data cs).flatten = data := by
  rw [slice_into_chunks]
  split
  · rename_i h
    have ih := slice_join (data.drop cs) cs hcs
    simp [ih]
  · simp
termination_by data.length
decreasing_by
  simp only [List.length_drop]
  omega

/-- No emitted chunk is longer than the chunk size. -/
theorem slice_len (data : List Nat) (cs : Nat) (hcs : 0 < cs) :
    ∀ c ∈ slice_into_chunks data cs, c.length ≤ cs := by
  rw [slice_into_chunks]
  split
  · rename_i h
    intro c hc
    rcases List.mem_cons.mp hc with h1 | h2
    · subst h1
      simp
    · exact slice_len (data.drop cs) cs hcs c h2
  · rename_i h
    intro c hc
    rcases List.mem_cons.mp hc with h1 | h2
    · subst h1
      rw [not_and_or] at h
      rcases h with h3 | h3
      · omega
      · omega
    · simp at h2
termination_by data.length
decreasing_by
  simp only [List.length_drop]
  omega

/-- Every chunk before the last is exactly chunk-size long: the bytes
emitted before chunk i amount to i * chunkSize. -/
theorem slice_take_sum (data : List Nat) (cs : Nat) (hcs : 0 < cs) :
    ∀ i, i < (slice_into_chunks data cs).length →
      (((slice_into_chunks data cs).take i).map List.length).sum = i * cs := by
  rw [slice_into_chunks]
  split
  · rename_i h
    intro i hi
    cases i with
    | zero => simp
    | succ j =>
      have ih := slice_take_sum (data.drop cs) cs hcs j (by simpa using hi)
      simp only [List.take_succ_cons, List.map_cons, List.sum_cons, ih]
      have hlen : (data.take cs).length = cs := by
        simp
        omega
      rw [hlen]
      ring
  · intro i hi
    simp at hi
    subst hi
    simp
termination_by data.length
decreasing_by
  simp only [List.length_drop]
  omega

/-- The prober loop accumulates exactly the reply sources seen before the
first timeout marker. -/
theorem onlineLoop_eq :
    ∀ (replies : List (Option (Nat × Nat))) (s : Finset Nat),
      onlineLoop s replies = s ∪ sourcesBeforeTimeout replies := by
  intro replies
  induction replies with
  | nil => intro s; simp [onlineLoop, sourcesBeforeTimeout]
  | cons hd rest ih =>
    intro s
    cases hd with
    | none => simp [onlineLoop, sourcesBeforeTimeout]
    | some p =>
      rw [onlineLoop, ih]
      have : sourcesBeforeTimeout (some p :: rest) = insert p.2 (sourcesBeforeTimeout rest) := by
        simp [sourcesBeforeTimeout]
      rw [this, Finset.insert_union, Finset.union_insert]

/-- check_online_boards in closed form: the set of sources of the
non-timeout replies preceding the first timeout indicator. -/
theorem check_online_boards_eq (boards : List Nat) (replies : List (Option (Nat × Nat))) :
    check_online_boards boards replies = sourcesBeforeTimeout replies := by
  unfold check_online_boards
  rw [onlineLoop_eq]
  simp

set_option maxRecDepth 16000

/-- Claim C1 (corrected): check_binary skips timeout markers without
counting them and keeps drawing until the number of non-timeout replies
reaches the number of destinations (failing only if the reader runs dry);
it returns, in arrival order, the sources of the counted replies whose
checksum equals the crc32 computed locally over the image, without checking
that those sources are destinations or that every destination was heard.
In particular, for destinations 1 and 2 the reply sequence timeout,
board-2-correct, board-1-correct verifies both boards, and with board 1
correct and board 2 incorrect only board 1 is returned, so the mismatch set
is exactly board 2. -/
theorem C1_check_binary_counts_replies :
    (∀ (binary : List Nat) (base : Nat) (dests : List Nat)
        (replies : List (Option (Nat × Nat))),
      check_binary binary base dests replies =
        (takeValid dests.length replies).map
          (fun es => (es.filter fun p => decide (p.1 = crc32 binary)).map Prod.snd))
    ∧ check_binary binaryEx 0x1000 [1, 2]
        [none, some (crc32 binaryEx, 2), some (crc32 binaryEx, 1)] = some [2, 1]
    ∧ check_binary binaryEx 0x1000 [1, 2]
        [some (crc32 binaryEx, 1), some (0xdead, 2), none] = some [1]
    ∧ ([1, 2] : List Nat).toFinset \ ([1] : List Nat).toFinset = {2} :=
  ⟨check_binary_eq, by rfl, by decide, by decide⟩

/-- Claim C1 counterexample: with destinations 1 and 2, two matching
replies from source 7 complete the loop; the returned list names board 7,
which is not a destination, so the result is not the set of destination ids
whose reported checksum matched (that set is empty here), and no reply was
ever attributed to destination 1 or 2. -/
theorem C1_counterexample :
    check_binary binaryEx 0x1000 [1, 2]
        [some (crc32 binaryEx, 7), some (crc32 binaryEx, 7)] = some [7, 7]
    ∧ (7 : Nat) ∉ ([1, 2] : List Nat) :=
  ⟨by rfl, by decide⟩

/-- Claim C2 (code bug): the up-front size check of pages_to_be_erased
computes pages[-1][0] - pages[0][0] + pages[0][1], i.e. it adds the size of
the FIRST remaining page, not the last one as the claim and the spec state.
On targetC2a (pages (0, 0x100) and (0x100, 0x10)) with image length 0x150,
the claim's formula 0x100 - 0 + 0x10 = 0x110 < 0x150 demands FlashSizeError
and the image indeed exceeds the total capacity 0x110, yet the code accepts
and returns a plan; on targetC2b (pages (0, 0x10) and (0x10, 0x100)) with
length 0x50 the claim's formula accepts (0x110 is not below 0x50) and the
image fits, yet the code raises FlashSizeError. -/
theorem C2_size_check_uses_first_page_size :
    pages_to_be_erased targetC2a 0x150 = .ok ([(0, 0x100), (0x100, 0x10)], targetC2a)
    ∧ ((0x100 : Int) - 0 + 0x10 < 0x150)
    ∧ sumSizes targetC2a.flash_pages < 0x150
    ∧ pages_to_be_erased targetC2b 0x50 = .error .flashSizeError
    ∧ ¬ ((0x10 : Int) - 0 + 0x100 < 0x50) :=
  ⟨by rfl, by decide, by decide, by rfl, by decide⟩

/-- Claim C6 (code bug): pages_to_be_erased pops the reserved leading pages
off the caller's flash_pages list in place, so a geometry holding a page
below base_address comes back changed: calling it on targetC6 leaves the
page table at just (0x1000, 0x1000) where the original had two pages. -/
theorem C6_geometry_is_mutated :
    pages_to_be_erased targetC6 1 =
      .ok ([(0x1000, 0x1000)], { targetC6 with flash_pages := [(0x1000, 0x1000)] })
    ∧ ({ targetC6 with flash_pages := [(0x1000, 0x1000)] } : Target).flash_pages ≠
        targetC6.flash_pages :=
  ⟨by rfl, by decide⟩

/-- Claim C7: check_online_boards returns exactly the set of source ids of
the non-timeout replies that precede the first timeout indicator; the
concrete run shows a reply arriving after the first timeout is not counted
and the result can be a strict subset of the candidates. -/
theorem C7_prober_stops_at_first_timeout :
    (∀ (boards : List Nat) (replies : List (Option (Nat × Nat))),
      check_online_boards boards replies = sourcesBeforeTimeout replies)
    ∧ check_online_boards [1, 2] [some (0, 1), none, some (0, 2)] = {1}
    ∧ ({1} : Finset Nat) ⊂ ([1, 2] : List Nat).toFinset :=
  ⟨check_online_boards_eq, by decide, by decide⟩

/-- Claim C10: on a geometry whose page table is empty, or whose pages all
sit below the base address, pages_to_be_erased runs the reserved-page
skipping loop off the end of the list and raises IndexError — not
FlashSizeError and not a normal return — whatever the image length. -/
theorem C10_reserved_loop_index_error :
    ∀ (target : Target) (L : Int),
      (target.flash_pages = [] ∨ ∀ p ∈ target.flash_pages, p.1 < target.base_address) →
      pages_to_be_erased target L = .error .indexError := by
  intro target L h
  have hdrop : dropReserved target.base_address target.flash_pages = .error .indexError := by
    rcases h with h | h
    · rw [h]; rfl
    · exact dropReserved_all_below _ _ h
  unfold pages_to_be_erased
  rw [hdrop]

theorem C10_reserved_loop_index_error_witness :
    ((([(0, 1)] : List (Nat × Nat)) = [] ∨ ∀ p ∈ ([(0, 1)] : List (Nat × Nat)), p.1 < 2)
      ∧ pages_to_be_erased ⟨2, "dummy", 4, [(0, 1)]⟩ 5 = .error .indexError) :=
  ⟨Or.inr (by decide),
    C10_reserved_loop_index_error ⟨2, "dummy", 4, [(0, 1)]⟩ 5 (Or.inr (by decide))⟩

/-- Claim C3: in a flash_binary run where the boards confirm the first k
erase commands and some board reports failure on erase command k, the run
stops in the erase phase with sys.exit(2) and the failing ids; the command
trace is exactly the first k + 1 erase commands, so no write command is
ever issued and the pages after the failing one are never erased. -/
theorem C3_erase_failure_stops_run :
    ∀ (binary : List Nat) (target : Target) (dests : List Nat) (resp : Nat → PBR)
      (plan : List (Nat × Nat)) (t' : Target) (k : Nat),
      pages_to_be_erased target (binary.length : Int) = .ok (plan, t') →
      k < plan.length →
      (∀ j, j < k → failedOf (resp j) = []) →
      failedOf (resp k) ≠ [] →
      flash_binary binary target dests resp =
        ((plan.take (k + 1)).map (fun p => Command.eraseCmd p.1 target.device_class),
          .sysExit 2 (failedOf (resp k)))
      ∧ (flash_binary binary target dests resp).1.filter Command.isWrite = [] := by
  intro binary target dests resp plan t' k hp hk hpre hfail
  have h1 := flash_binary_erase_fail dests hp hk hpre hfail
  refine ⟨h1, ?_⟩
  rw [h1]
  rw [List.filter_eq_nil_iff]
  intro c hc
  simp only [List.mem_map] at hc
  obtain ⟨p, _, rfl⟩ := hc
  simp [Command.isWrite]

theorem C3_erase_failure_stops_run_witness :
    flash_binary [0] targetMain [1] (fun _ => [(1, false)]) =
      ([Command.eraseCmd 0x1000 "dummy"], .sysExit 2 [1])
    ∧ (flash_binary [0] targetMain [1] (fun _ => [(1, false)])).1.filter Command.isWrite
        = [] := by
  have h := C3_erase_failure_stops_run [0] targetMain [1] (fun _ => [(1, false)])
    [(0x1000, 0x1000)] { targetMain with flash_pages := [(0x1000, 0x1000), (0x2000, 0x1000)] }
    0 (by rfl) (by decide) (fun j hj => absurd hj (Nat.not_lt_zero j)) (by decide)
  exact ⟨by rw [h.1]; rfl, h.2⟩

/-- Claim C9 (corrected): no failure report is sorted by the code.  The ids
of an erase-phase abort (at any plan position k) and of a write-phase abort
(at any chunk position k) are exactly the failing entries of that
exchange's per-board result mapping, in the mapping's own iteration order;
filtering preserves ascending key order, so the report is ascending
whenever the mapping arrives keyed ascending — but not only then, as the
mapping keyed 2, 1, 3 with only boards 1 and 3 failing reports the
ascending list 1, 3. -/
theorem C9_report_order_follows_mapping :
    (∀ (binary : List Nat) (target : Target) (dests : List Nat) (resp : Nat → PBR)
        (plan : List (Nat × Nat)) (t' : Target) (k : Nat),
      pages_to_be_erased target (binary.length : Int) = .ok (plan, t') →
      k < plan.length →
      (∀ j, j < k → failedOf (resp j) = []) →
      failedOf (resp k) ≠ [] →
      (flash_binary binary target dests resp).2 =
        .sysExit 2 (((resp k).filter fun p => !p.2).map Prod.fst))
    ∧ (∀ (binary : List Nat) (target : Target) (dests : List Nat) (resp : Nat → PBR)
        (plan : List (Nat × Nat)) (t' : Target) (k : Nat),
      pages_to_be_erased target (binary.length : Int) = .ok (plan, t') →
      (∀ j, j < plan.length → failedOf (resp j) = []) →
      k < (slice_into_chunks binary target.chunk_size).length →
      (∀ j, j < k → failedOf (resp (plan.length + j)) = []) →
      failedOf (resp (plan.length + k)) ≠ [] →
      (flash_binary binary target dests resp).2 =
        .sysExit 2 (((resp (plan.length + k)).filter fun p => !p.2).map Prod.fst))
    ∧ (∀ r : PBR, List.Pairwise (fun p q => p.1 ≤ q.1) r →
        List.Pairwise (fun a b : Nat => a ≤ b) (failedOf r))
    ∧ ¬ List.Pairwise (fun p q : Nat × Bool => p.1 ≤ q.1)
        [(2, true), (1, false), (3, false)]
    ∧ failedOf [(2, true), (1, false), (3, false)] = [1, 3]
    ∧ List.Pairwise (fun a b : Nat => a ≤ b) [1, 3] := by
  refine ⟨?_, ?_, ?_, by decide, by decide, by decide⟩
  · intro binary target dests resp plan t' k hp hk hpre hfail
    have h1 := flash_binary_erase_fail dests hp hk hpre hfail
    rw [h1]
    rfl
  · intro binary target dests resp plan t' k hp hse hk hpre hfail
    have h1 := flash_binary_write_fail dests hp hse hk hpre hfail
    rw [h1]
    rfl
  · intro r hr
    exact (hr.filter _).map Prod.fst (fun a b h => h)

/-- Claim C9 counterexample: a per-board result mapping arriving keyed 2,
1, 3 with boards 2 and 1 failing makes flash_binary abort naming the boards
as 2, 1 — not in ascending sorted order. -/
theorem C9_unsorted_report_counterexample :
    (flash_binary [0] targetMain [1, 2, 3]
        (fun _ => [(2, false), (1, false), (3, true)])).2 = .sysExit 2 [2, 1]
    ∧ ¬ List.Pairwise (fun a b : Nat => a ≤ b) [2, 1] :=
  ⟨by rfl, by decide⟩

theorem C9_report_order_follows_mapping_witness :
    (flash_binary [0] targetMain [1, 2, 3]
        (fun _ => [(1, false), (2, false), (3, true)])).2 = .sysExit 2 [1, 2]
    ∧ (flash_binary binaryEx targetMain [1, 2]
        (fun n => if n = 0 then [] else [(2, false), (1, false)])).2 = .sysExit 2 [2, 1]
    ∧ List.Pairwise (fun a b : Nat => a ≤ b)
        (failedOf [(1, false), (2, false), (3, true)]) := by
  refine ⟨?_, ?_, ?_⟩
  · have h := C9_report_order_follows_mapping.1 [0] targetMain [1, 2, 3]
      (fun _ => [(1, false), (2, false), (3, true)]) [(0x1000, 0x1000)]
      { targetMain with flash_pages := [(0x1000, 0x1000), (0x2000, 0x1000)] }
      0 (by rfl) (by decide) (fun j hj => absurd hj (Nat.not_lt_zero j)) (by decide)
    rw [h]
    rfl
  · have h := C9_report_order_follows_mapping.2.1 binaryEx targetMain [1, 2]
      (fun n => if n = 0 then [] else [(2, false), (1, false)]) [(0x1000, 0x1000)]
      { targetMain with flash_pages := [(0x1000, 0x1000), (0x2000, 0x1000)] }
      0 (by rfl)
      (by intro j hj; have hj0 : j = 0 := Nat.lt_one_iff.mp hj; subst hj0; rfl)
      (by rw [slice_into_chunks]; simp [binaryEx, targetMain])
      (fun j hj => absurd hj (Nat.not_lt_zero j)) (by decide)
    rw [h]
    rfl
  · exact C9_report_order_follows_mapping.2.2.1
      [(1, false), (2, false), (3, true)] (by decide)

/-- Claim C4: for every image and chunk size above zero, the chunks
concatenate back to the image in emission order, none exceeds the chunk
size, and the bytes emitted before chunk i always total i times the chunk
size; moreover, in a flash_binary run where no board reports failure, chunk
i is written at address base_address + i * chunk_size, which by the
previous part equals the base address plus the bytes emitted before it. -/
theorem C4_chunks_rebuild_image :
    (∀ (data : List Nat) (cs : Nat), 0 < cs →
      (slice_into_chunks data cs).flatten = data ∧
      (∀ c ∈ slice_into_chunks data cs, c.length ≤ cs) ∧
      (∀ i, i < (slice_into_chunks data cs).length →
        (((slice_into_chunks data cs).take i).map List.length).sum = i * cs))
    ∧ ∀ (binary : List Nat) (target : Target) (dests : List Nat) (resp : Nat → PBR)
        (plan : List (Nat × Nat)) (t' : Target) (i : Nat) (chunk : List Nat),
        (∀ j, failedOf (resp j) = []) →
        pages_to_be_erased target (binary.length : Int) = .ok (plan, t') →
        (slice_into_chunks binary target.chunk_size)[i]? = some chunk →
        Command.writeCmd chunk (target.base_address + i * target.chunk_size)
            target.device_class ∈ (flash_binary binary target dests resp).1 := by
  constructor
  · intro data cs hcs
    exact ⟨slice_join data cs hcs, slice_len data cs hcs, slice_take_sum data cs hcs⟩
  · intro binary target dests resp plan t' i chunk hs hp hchunk
    rw [flash_binary_success dests hs hp]
    have hm := writeCmdsFrom_mem target.device_class target.base_address target.chunk_size
      (slice_into_chunks binary target.chunk_size) 0 i chunk hchunk
    rw [Nat.zero_add] at hm
    exact List.mem_append_left _ (List.mem_append_right _ hm)

theorem C4_chunks_rebuild_image_witness :
    (0 < 2 ∧ (slice_into_chunks [1, 2, 3] 2).flatten = [1, 2, 3])
    ∧ Command.writeCmd binaryEx 0x1000 "dummy" ∈
        (flash_binary binaryEx targetMain [1] (fun _ => [])).1 := by
  constructor
  · exact ⟨by decide, (C4_chunks_rebuild_image.1 [1, 2, 3] 2 (by decide)).1⟩
  · have h := C4_chunks_rebuild_image.2 binaryEx targetMain [1] (fun _ => [])
      [(0x1000, 0x1000)]
      { targetMain with flash_pages := [(0x1000, 0x1000), (0x2000, 0x1000)] }
      0 binaryEx (fun _ => rfl) (by rfl) ?_
    · exact h
    · rw [slice_into_chunks]
      simp [binaryEx, targetMain]

/-- Claim C5 (corrected): whenever pages_to_be_erased does return a plan
and the image fits in the pages that remain after the reserved ones, the
plan is an initial segment of the remaining page table (the pages from the
first page at or above base_address), hence a contiguous run of
flash_pages; its total size covers the image length; its last page is
needed, so the total stays below the image length plus the size of the last
selected page; and ascending non-overlapping input pages yield an ascending
non-overlapping plan.  The spec's concrete scenario holds.  The claim as
stated also demands a plan for every image that fits in capacity, which the
flawed up-front size check refutes: see the counterexample. -/
theorem C5_erase_plan_shape :
    (∀ (target : Target) (L : Int) (plan : List (Nat × Nat)) (t' : Target),
      pages_to_be_erased target L = .ok (plan, t') →
      L ≤ (sumSizes t'.flash_pages : Int) →
      t'.flash_pages =
          target.flash_pages.dropWhile (fun p => decide (p.1 < target.base_address)) ∧
      (∃ k, plan = t'.flash_pages.take k) ∧
      (∃ pre post, pre ++ plan ++ post = target.flash_pages) ∧
      L ≤ (sumSizes plan : Int) ∧
      (∀ h : plan ≠ [],
        (sumSizes plan.dropLast : Int) < L ∧
        (sumSizes plan : Int) < L + ((plan.getLast h).2 : Int)) ∧
      (List.Pairwise (fun p q : Nat × Nat => p.1 + p.2 ≤ q.1) target.flash_pages →
        List.Pairwise (fun p q : Nat × Nat => p.1 + p.2 ≤ q.1) plan))
    ∧ pages_to_be_erased targetPlan 0x1001 =
        .ok (planEx, { targetPlan with flash_pages := remainEx }) := by
  constructor
  · intro target L plan t' hok hfit
    obtain ⟨first, rest, hdrop, hplan, ht'⟩ := pages_to_be_erased_ok hok
    obtain ⟨hdw, pre, hpre⟩ := dropReserved_ok _ _ _ _ hdrop
    have hflash : t'.flash_pages = first :: rest := by rw [ht']
    obtain ⟨k, hk⟩ := buildErase_eq_take (first :: rest) L
    refine ⟨by rw [hflash, hdw], ⟨k, by rw [hplan, hflash, hk]⟩, ?_, ?_, ?_, ?_⟩
    · refine ⟨pre, (first :: rest).drop k, ?_⟩
      rw [hplan, hk, hpre, List.append_assoc, List.take_append_drop]
    · rw [hflash] at hfit
      rw [hplan]
      exact buildErase_sum_ge (first :: rest) L hfit
    · intro hne
      have h1 : (sumSizes plan.dropLast : Int) < L := by
        rw [hplan] at hne ⊢
        exact buildErase_dropLast_lt (first :: rest) L hne
      refine ⟨h1, ?_⟩
      have h2 := sumSizes_eq_dropLast_add plan hne
      rw [h2]
      push_cast
      omega
    · intro hpw
      have s1 : plan.Sublist (first :: rest) := by
        rw [hplan, hk]
        exact List.take_sublist k (first :: rest)
      have s2 : (first :: rest).Sublist target.flash_pages := by
        rw [hpre]
        exact List.sublist_append_right pre (first :: rest)
      exact hpw.sublist (s1.trans s2)
  · rfl

/-- Claim C5 counterexample: on targetC2b an image of length 0x50 fits
within capacity (at most the 0x110 bytes available from the first
non-reserved page to the last), yet pages_to_be_erased raises
FlashSizeError and returns no ErasePlan at all. -/
theorem C5_counterexample :
    pages_to_be_erased targetC2b 0x50 = .error .flashSizeError
    ∧ (0x50 : Int) ≤ (sumSizes targetC2b.flash_pages : Int) :=
  ⟨by rfl, by decide⟩

theorem C5_erase_plan_shape_witness :
    ((0x1001 : Int) ≤ (sumSizes remainEx : Int))
    ∧ remainEx =
        targetPlan.flash_pages.dropWhile (fun p => decide (p.1 < targetPlan.base_address))
    ∧ (∃ k, planEx = remainEx.take k)
    ∧ (∃ pre post, pre ++ planEx ++ post = targetPlan.flash_pages)
    ∧ (0x1001 : Int) ≤ (sumSizes planEx : Int)
    ∧ (∀ h : planEx ≠ [],
        (sumSizes planEx.dropLast : Int) < 0x1001 ∧
        (sumSizes planEx : Int) < 0x1001 + ((planEx.getLast h).2 : Int))
    ∧ (List.Pairwise (fun p q : Nat × Nat => p.1 + p.2 ≤ q.1) targetPlan.flash_pages →
        List.Pairwise (fun p q : Nat × Nat => p.1 + p.2 ≤ q.1) planEx) := by
  have h := C5_erase_plan_shape.1 targetPlan 0x1001 planEx
    { targetPlan with flash_pages := remainEx } (by rfl) (by decide)
  exact ⟨by decide, h.1, h.2.1, h.2.2.1, h.2.2.2.1, h.2.2.2.2.1, h.2.2.2.2.2⟩

/-- Claim C8: main exits 0 when the probe answers match the requested ids,
every channel exchange of the flash succeeds and every destination reports
the locally computed crc; exits 2 when the probe result differs from the
requested ids; exits 2 when a board fails any erase exchange (position k of
the plan, the earlier ones having succeeded) and likewise when a board
fails any write exchange (chunk k, all erases and the earlier writes having
succeeded), both through flash_binary's sys.exit(2); and exits 1 when the
verification result set differs from the requested ids. -/
theorem C8_exit_codes :
    (∀ (ids binary : List Nat) (target : Target) (ping : List (Option (Nat × Nat)))
        (resp : Nat → PBR) (crcReplies : List (Option (Nat × Nat))) (run : Bool)
        (entries : List (Nat × Nat)) (plan : List (Nat × Nat)) (t' : Target),
      sourcesBeforeTimeout ping = ids.toFinset →
      (∀ j, failedOf (resp j) = []) →
      pages_to_be_erased target (binary.length : Int) = .ok (plan, t') →
      takeValid ids.length crcReplies = some entries →
      (∀ e ∈ entries, e.1 = crc32 binary) →
      ((entries.map Prod.snd).toFinset = ids.toFinset) →
      main ids binary target ping resp crcReplies run = .exitCode 0)
    ∧ (∀ (ids binary : List Nat) (target : Target) (ping : List (Option (Nat × Nat)))
        (resp : Nat → PBR) (crcReplies : List (Option (Nat × Nat))) (run : Bool),
      sourcesBeforeTimeout ping ≠ ids.toFinset →
      main ids binary target ping resp crcReplies run = .exitCode 2)
    ∧ (∀ (ids binary : List Nat) (target : Target) (ping : List (Option (Nat × Nat)))
        (resp : Nat → PBR) (crcReplies : List (Option (Nat × Nat))) (run : Bool)
        (plan : List (Nat × Nat)) (t' : Target) (k : Nat),
      sourcesBeforeTimeout ping = ids.toFinset →
      pages_to_be_erased target (binary.length : Int) = .ok (plan, t') →
      k < plan.length →
      (∀ j, j < k → failedOf (resp j) = []) →
      failedOf (resp k) ≠ [] →
      main ids binary target ping resp crcReplies run = .exitCode 2)
    ∧ (∀ (ids binary : List Nat) (target : Target) (ping : List (Option (Nat × Nat)))
        (resp : Nat → PBR) (crcReplies : List (Option (Nat × Nat))) (run : Bool)
        (plan : List (Nat × Nat)) (t' : Target) (k : Nat),
      sourcesBeforeTimeout ping = ids.toFinset →
      pages_to_be_erased target (binary.length : Int) = .ok (plan, t') →
      (∀ j, j < plan.length → failedOf (resp j) = []) →
      k < (slice_into_chunks binary target.chunk_size).length →
      (∀ j, j < k → failedOf (resp (plan.length + j)) = []) →
      failedOf (resp (plan.length + k)) ≠ [] →
      main ids binary target ping resp crcReplies run = .exitCode 2)
    ∧ (∀ (ids binary : List Nat) (target : Target) (ping : List (Option (Nat × Nat)))
        (resp : Nat → PBR) (crcReplies : List (Option (Nat × Nat))) (run : Bool)
        (valid : List Nat),
      sourcesBeforeTimeout ping = ids.toFinset →
      (flash_binary binary target ids resp).2 = .finished →
      check_binary binary target.base_address ids crcReplies = some valid →
      valid.toFinset ≠ ids.toFinset →
      main ids binary target ping resp crcReplies run = .exitCode 1) := by
  refine ⟨?_, ?_, ?_, ?_, ?_⟩
  · intro ids binary target ping resp crcReplies run entries plan t'
      hping hs hp htv hcrc hset
    simp only [main, check_online_boards_eq, hping, ne_eq, not_true_eq_false, if_false,
      flash_binary_success ids hs hp, check_binary_eq, htv, Option.map_some']
    have hfilter : entries.filter (fun p => decide (p.1 = crc32 binary)) = entries :=
      List.filter_eq_self.mpr (fun a ha => by simp [hcrc a ha])
    rw [hfilter, if_pos hset]
  · intro ids binary target ping resp crcReplies run hne
    simp only [main, check_online_boards_eq]
    rw [if_pos hne]
  · intro ids binary target ping resp crcReplies run plan t' k hping hp hk hpre hfail
    have h1 := flash_binary_erase_fail ids hp hk hpre hfail
    simp only [main, check_online_boards_eq, hping, ne_eq, not_true_eq_false, if_false, h1]
  · intro ids binary target ping resp crcReplies run plan t' k
      hping hp hse hk hpre hfail
    have h1 := flash_binary_write_fail ids hp hse hk hpre hfail
    simp only [main, check_online_boards_eq, hping, ne_eq, not_true_eq_false, if_false, h1]
  · intro ids binary target ping resp crcReplies run valid hping hfin hcb hne
    rcases hfb : flash_binary binary target ids resp with ⟨tr, rr⟩
    rw [hfb] at hfin
    have hr : rr = RunResult.finished := hfin
    subst hr
    simp only [main, check_online_boards_eq, hping, ne_eq, not_true_eq_false, if_false,
      hfb, hcb]
    rw [if_neg hne]
    rfl

theorem C8_exit_codes_witness :
    main [1] binaryEx targetMain [some (0, 1)] (fun _ => [])
        [some (crc32 binaryEx, 1)] false = .exitCode 0
    ∧ main [1] binaryEx targetMain [] (fun _ => []) [some (crc32 binaryEx, 1)] false
        = .exitCode 2
    ∧ main [1] binaryEx targetMain [some (0, 1)] (fun _ => [(1, false)])
        [some (crc32 binaryEx, 1)] false = .exitCode 2
    ∧ main [1] binaryEx targetMain [some (0, 1)]
        (fun n => if n = 0 then [] else [(1, false)])
        [some (crc32 binaryEx, 1)] false = .exitCode 2
    ∧ main [1] binaryEx targetMain [some (0, 1)] (fun _ => []) [some (0, 1)] false
        = .exitCode 1 := by
  have hp : pages_to_be_erased targetMain ((binaryEx : List Nat).length : Int) =
      .ok ([(0x1000, 0x1000)],
        { targetMain with flash_pages := [(0x1000, 0x1000), (0x2000, 0x1000)] }) := by rfl
  have hsOk : ∀ j : Nat, failedOf ((fun _ : Nat => ([] : PBR)) j) = [] := fun _ => rfl
  refine ⟨?_, ?_, ?_, ?_, ?_⟩
  · exact C8_exit_codes.1 [1] binaryEx targetMain [some (0, 1)] (fun _ => [])
      [some (crc32 binaryEx, 1)] false [(crc32 binaryEx, 1)] [(0x1000, 0x1000)]
      { targetMain with flash_pages := [(0x1000, 0x1000), (0x2000, 0x1000)] }
      (by decide) (fun _ => rfl) hp (by rfl) (by simp) (by rfl)
  · exact C8_exit_codes.2.1 [1] binaryEx targetMain [] (fun _ => [])
      [some (crc32 binaryEx, 1)] false (by decide)
  · exact C8_exit_codes.2.2.1 [1] binaryEx targetMain [some (0, 1)]
      (fun _ => [(1, false)]) [some (crc32 binaryEx, 1)] false [(0x1000, 0x1000)]
      { targetMain with flash_pages := [(0x1000, 0x1000), (0x2000, 0x1000)] }
      0 (by decide) (by rfl) (by decide)
      (fun j hj => absurd hj (Nat.not_lt_zero j)) (by decide)
  · exact C8_exit_codes.2.2.2.1 [1] binaryEx targetMain [some (0, 1)]
      (fun n => if n = 0 then [] else [(1, false)]) [some (crc32 binaryEx, 1)] false
      [(0x1000, 0x1000)]
      { targetMain with flash_pages := [(0x1000, 0x1000), (0x2000, 0x1000)] }
      0 (by decide) (by rfl)
      (by intro j hj; have hj0 : j = 0 := Nat.lt_one_iff.mp hj; subst hj0; rfl)
      (by rw [slice_into_chunks]; simp [binaryEx, targetMain])
      (fun j hj => absurd hj (Nat.not_lt_zero j)) (by decide)
  · exact C8_exit_codes.2.2.2.2 [1] binaryEx targetMain [some (0, 1)] (fun _ => [])
      [some (0, 1)] false [] (by decide)
      (by rw [flash_binary_success [1] hsOk hp])
      (by decide) (by decide)

end BootloaderFlash
